import Mathlib

/-!
Verification of the upload intake and storage-naming pipeline of the
Raspberry Pi file-drop server (`src/file_server/server.py`).

The server's core logic is embedded shallowly:

* `allowed_file` mirrors `allowed_file` (server.py lines 26-28).
* `secure_filename` mirrors `werkzeug.utils.secure_filename` as it runs on a
  POSIX host (the Raspberry Pi): NFKD normalisation followed by
  ASCII-encode-with-ignore is modelled as a filter keeping code points `< 128`
  (NFKD is the identity on ASCII input, and every non-ASCII code point is
  discarded by the encode step); `os.sep = '/'` is replaced by a space,
  `os.path.altsep` is `None`; `"_".join(filename.split())` is the
  whitespace-run collapse; the regex `[^A-Za-z0-9_.-]` substitution is a
  filter; `.strip("._")` strips those characters from both ends.  The
  Windows-device-file branch is dead on POSIX (`os.name != 'nt'`) and is
  omitted.
* `splitext` mirrors `os.path.splitext` on a bare filename (no separator):
  split at the last dot unless every character before it is a dot.
* `strftimeToken` mirrors `datetime.strftime('%Y%m%d_%H%M%S')`, zero-padding
  the year to 4 digits and the other fields to 2.
* `upload_file` mirrors the `/upload` handler (server.py lines 118-152)
  together with the transport-level size cap `MAX_CONTENT_LENGTH`
  (server.py line 20), which werkzeug enforces when the handler first touches
  `request.files`: a request whose declared length exceeds the cap is answered
  413 before any of the handler's own checks run.  File-system writes and the
  `try/except` around `file.save`/`os.path.getsize` are modelled with an
  explicit directory state and an I/O-outcome parameter.
* `list_files_route` mirrors the `/files` handler (server.py lines 154-169).

Characters are `List Char`; Python string lowering is modelled by the
ASCII-only `Char.toLower`, which agrees with Python's `str.lower` on every
input relevant to membership in the all-ASCII allowed-extension set.
-/

namespace FileServer

/-- server.py line 15: `UPLOAD_FOLDER = 'uploads'`. -/
def uploadFolder : List Char := "uploads".data

/-- server.py line 16: `MAX_FILE_SIZE = 16 * 1024 * 1024`. -/
def MAX_FILE_SIZE : Nat := 16 * 1024 * 1024

/-- server.py line 17: the set of allowed (lowercase) extensions. -/
def ALLOWED_EXTENSIONS : List (List Char) :=
  ["txt".data, "pdf".data, "png".data, "jpg".data, "jpeg".data,
   "gif".data, "doc".data, "docx".data, "zip".data]

/-- The substring after the last `.`, i.e. Python's `s.rsplit('.', 1)[1]`
when `s` contains a dot. -/
def extAfterLastDot (s : List Char) : List Char :=
  (s.reverse.takeWhile (fun c => !(c == '.'))).reverse

/-- server.py lines 26-28:
`'.' in filename and filename.rsplit('.', 1)[1].lower() in ALLOWED_EXTENSIONS`. -/
def allowed_file (s : List Char) : Bool :=
  s.contains '.' && ALLOWED_EXTENSIONS.contains ((extAfterLastDot s).map Char.toLower)

/-! werkzeug `secure_filename`, POSIX behaviour. -/

/-- Python `str.split()` whitespace for code points below 128:
space, `\t`, `\n`, `\r`, `\x0b`, `\x0c`, `\x1c`-`\x1f`. -/
def pyIsSpace (c : Char) : Bool :=
  c == ' ' || c == '\t' || c == '\n' || c == '\r' || c == '\x0b' ||
  c == '\x0c' || c == '\x1c' || c == '\x1d' || c == '\x1e' || c == '\x1f'

/-- The character class kept by werkzeug's `_filename_ascii_strip_re`
substitution, i.e. `[A-Za-z0-9_.-]`. -/
def isSafeChar (c : Char) : Bool :=
  c.isAlpha || c.isDigit || c == '_' || c == '.' || c == '-'

/-- `filename.encode("ascii", "ignore").decode("ascii")` after NFKD:
non-ASCII code points are discarded. -/
def asciiFilter (s : List Char) : List Char :=
  s.filter (fun c => c.toNat < 128)

/-- `filename.replace(os.sep, " ")` with `os.sep = '/'`. -/
def replaceSep (s : List Char) : List Char :=
  s.map (fun c => if c == '/' then ' ' else c)

/-- One step of the right fold computing `str.split()`: a whitespace
character opens a new (possibly empty) group, any other character is
prepended to the current first group. -/
def wordStep (c : Char) (acc : List (List Char)) : List (List Char) :=
  if pyIsSpace c then [] :: acc
  else
    match acc with
    | [] => [[c]]
    | w :: ws => (c :: w) :: ws

/-- Python `filename.split()`: maximal runs of non-whitespace characters,
with empty groups discarded. -/
def splitWords (s : List Char) : List (List Char) :=
  (s.foldr wordStep []).filter (fun w => !w.isEmpty)

/-- Python `"_".join(ws)`. -/
def joinUnderscore : List (List Char) → List Char
  | [] => []
  | [w] => w
  | w :: x :: ws => w ++ '_' :: joinUnderscore (x :: ws)

/-- `True` exactly for the characters removed by `.strip("._")`. -/
def isDotOrUnderscore (c : Char) : Bool :=
  c == '.' || c == '_'

/-- Python `s.strip("._")`: drop `.` and `_` from both ends. -/
def stripDotUnderscore (s : List Char) : List Char :=
  ((s.dropWhile isDotOrUnderscore).reverse.dropWhile isDotOrUnderscore).reverse

/-- `werkzeug.utils.secure_filename` on a POSIX host (see module comment). -/
def secure_filename (f : List Char) : List Char :=
  stripDotUnderscore
    ((joinUnderscore (splitWords (replaceSep (asciiFilter f)))).filter isSafeChar)

/-! `os.path.splitext` and the timestamp token. -/

/-- The index of the last `.` of `s` (meaningful when `s` contains a dot):
the length of `s` minus one minus the length of the dot-free tail. -/
def splitextIdx (s : List Char) : Nat :=
  s.length - 1 - (s.reverse.takeWhile (fun c => !(c == '.'))).length

/-- `os.path.splitext` on a bare filename (the input here never contains a
path separator): split at the last dot, except that a name whose every
character before the last dot is itself a dot (e.g. `.bashrc`) is not
split. -/
def splitext (s : List Char) : List Char × List Char :=
  if s.contains '.' then
    if (s.take (splitextIdx s)).all (fun c => c == '.') then (s, [])
    else (s.take (splitextIdx s), s.drop (splitextIdx s))
  else (s, [])

/-- The decimal digit character for `n % 10`. -/
def digitChar (n : Nat) : Char :=
  Char.ofNat (48 + n % 10)

/-- Decimal digits of `n`, most significant first, with structural fuel
(one unit per digit; `n + 1` is always enough). -/
def natDigitsAux : Nat → Nat → List Char
  | 0, _ => []
  | fuel + 1, n =>
    if n < 10 then [digitChar n] else natDigitsAux fuel (n / 10) ++ [digitChar n]

/-- Decimal digits of `n`, most significant first. -/
def natDigits (n : Nat) : List Char :=
  natDigitsAux (n + 1) n

/-- Zero-pad the decimal rendering of `n` to width `w`, as `%0wd` does. -/
def padZero (w : Nat) (n : Nat) : List Char :=
  List.replicate (w - (natDigits n).length) '0' ++ natDigits n

/-- A wall-clock instant at one-second resolution, the explicit `now`
input of the naming step (`datetime.now()` in server.py line 134). -/
structure DateTime where
  year : Nat
  month : Nat
  day : Nat
  hour : Nat
  minute : Nat
  second : Nat
deriving DecidableEq, Repr

/-- server.py line 134: `datetime.now().strftime('%Y%m%d_%H%M%S')`. -/
def strftimeToken (t : DateTime) : List Char :=
  padZero 4 t.year ++ padZero 2 t.month ++ padZero 2 t.day ++
    '_' :: (padZero 2 t.hour ++ padZero 2 t.minute ++ padZero 2 t.second)

/-- server.py lines 133-136: sanitize, split into stem and extension, and
compose `f"{name}_{timestamp}{ext}"`. -/
def derive_name (original : List Char) (now : DateTime) : List Char :=
  let filename := secure_filename original
  let p := splitext filename
  p.1 ++ '_' :: (strftimeToken now ++ p.2)

/-! Destination paths (`os.path.join`) and their resolution relative to the
storage root. -/

/-- `os.path.join(a, b)` for a relative `a`: an absolute second argument
discards the first, otherwise the parts are joined with `/`. -/
def osPathJoin (a b : List Char) : List Char :=
  if b.head? == some '/' then b else a ++ '/' :: b

/-- One step of the right fold splitting a path on `/` (keeping empty
components, so that absolute paths and repeated separators are visible). -/
def slashStep (c : Char) (acc : List (List Char)) : List (List Char) :=
  if c == '/' then [] :: acc
  else
    match acc with
    | [] => [[c]]
    | w :: ws => (c :: w) :: ws

/-- Split a path into its `/`-separated components. -/
def splitOnSlash (s : List Char) : List (List Char) :=
  s.foldr slashStep [[]]

/-- Resolve `.`, `..` and empty components the way the file system does:
`.` and empty components are skipped, `..` pops the last resolved
component. -/
def resolveParts (parts : List (List Char)) : List (List Char) :=
  parts.foldl
    (fun acc part =>
      if part == [] || part == ['.'] then acc
      else if part == ['.', '.'] then acc.dropLast
      else acc ++ [part])
    []

/-- A relative path stays inside `root` when, after resolution, its first
component is `root` and something remains strictly below it. -/
def staysInside (root p : List Char) : Bool :=
  !(p.head? == some '/') &&
    (match resolveParts (splitOnSlash p) with
     | r :: rest => r == root && !rest.isEmpty
     | [] => false)

/-! The storage root as explicit state, and the two handlers that touch it. -/

/-- A directory entry of the storage root: a regular file with its bytes and
modification instant, or a subdirectory (which `/files` skips via
`os.path.isfile`). -/
inductive Entry
  | file (name : List Char) (content : List Nat) (mtime : DateTime)
  | dir (name : List Char)
deriving DecidableEq, Repr

/-- The storage root directory: the file system is the source of truth. -/
abbrev FS := List Entry

/-- The name of an entry. -/
def Entry.name : Entry → List Char
  | .file n _ _ => n
  | .dir n => n

/-- `file.save(filepath)` with create-or-truncate semantics: an existing
entry of that name is overwritten, otherwise the file is appended. -/
def fsWrite (fs : FS) (name : List Char) (content : List Nat) (mtime : DateTime) : FS :=
  if fs.any (fun e => e.name == name) then
    fs.map (fun e => if e.name == name then .file name content mtime else e)
  else
    fs ++ [.file name content mtime]

/-- server.py line 165: `datetime.fromtimestamp(...).strftime('%Y-%m-%d %H:%M:%S')`. -/
def formatMtime (t : DateTime) : List Char :=
  padZero 4 t.year ++ '-' :: (padZero 2 t.month ++ '-' :: (padZero 2 t.day ++
    ' ' :: (padZero 2 t.hour ++ ':' :: (padZero 2 t.minute ++ ':' :: padZero 2 t.second))))

/-- server.py lines 158-166: enumerate the storage root, keeping regular
files only, and report name, size and modification time. -/
def list_files (fs : FS) : List (List Char × Nat × List Char) :=
  fs.filterMap fun e =>
    match e with
    | .file n c m => some (n, c.length, formatMtime m)
    | .dir _ => none

/-- The `/files` handler (server.py lines 154-169): a read-only projection
of the storage root; the directory state is returned unchanged. -/
def list_files_route (fs : FS) : List (List Char × Nat × List Char) × FS :=
  (list_files fs, fs)

/-- One decoded multipart upload request as the handler sees it:
whether a `file` part is present, the part's filename, the declared body
length that `MAX_CONTENT_LENGTH` is checked against, and the file bytes. -/
structure UploadRequest where
  hasFilePart : Bool
  filename : List Char
  contentLength : Nat
  content : List Nat
deriving DecidableEq, Repr

/-- The outcome of the `try` block around `file.save` and
`os.path.getsize` (server.py lines 140-142): success, or an exception from
`save` (possibly after writing some bytes), or an exception from the
`getsize` stat after a complete write. -/
inductive IOOutcome
  | ok
  | saveFails (written : Option (List Nat)) (msg : List Char)
  | statFails (msg : List Char)
deriving DecidableEq, Repr

/-- The responses the `/upload` pipeline can produce, in source order:
the werkzeug 413 for an oversize body (server.py line 20), the three
400 rejections of the handler (lines 121-130), the 500 of the `except`
branch (line 152), and the 200 success payload (lines 144-150). -/
inductive UploadResponse
  | tooLarge
  | noFilePart
  | noFilename
  | disallowedExt
  | saveFailed (msg : List Char)
  | success (filename : List Char) (size : Nat) (timestamp : List Char)
deriving DecidableEq, Repr

/-- The message prefix of the 500 response (server.py line 152). -/
def saveErrMsg : List Char := "Failed to save file: ".data

/-- The `/upload` pipeline (server.py lines 118-152) together with the
transport-level size cap: werkzeug answers 413 when the declared body
length exceeds `MAX_CONTENT_LENGTH`, before any handler check runs; then
the handler checks the file part, the filename, and `allowed_file`;
finally the sanitized, timestamped name is derived and the bytes are
written under `storageRoot/storedName`, with the reported size taken from
`os.path.getsize` of the written file. -/
def upload_file (fs : FS) (req : UploadRequest) (now : DateTime) (io : IOOutcome) :
    UploadResponse × FS :=
  if req.contentLength > MAX_FILE_SIZE then (.tooLarge, fs)
  else if !req.hasFilePart then (.noFilePart, fs)
  else if req.filename.isEmpty then (.noFilename, fs)
  else if !(allowed_file req.filename) then (.disallowedExt, fs)
  else
    let uniqueFilename := derive_name req.filename now
    match io with
    | .ok =>
        (.success uniqueFilename req.content.length (strftimeToken now),
         fsWrite fs uniqueFilename req.content now)
    | .saveFails written msg =>
        (.saveFailed (saveErrMsg ++ msg),
         match written with
         | none => fs
         | some w => fsWrite fs uniqueFilename w now)
    | .statFails msg =>
        (.saveFailed (saveErrMsg ++ msg), fsWrite fs uniqueFilename req.content now)

/-- The rejection taxonomy of the specification (§7). -/
inductive Reason
  | noFilename
  | disallowedExtension
  | tooLarge
  | writeError
deriving DecidableEq, Repr

/-- Modelled from the spec (refinement map, §4.1/§7): the specification
folds the handler's two missing-file responses (`No file part in the
request`, `No file selected`) into the single reason `NoFilename`, calls
the 413 `TooLarge`, the extension rejection `DisallowedExtension`, and the
500 `WriteError`; a success carries no rejection reason. -/
def specReason : UploadResponse → Option Reason
  | .tooLarge => some .tooLarge
  | .noFilePart => some .noFilename
  | .noFilename => some .noFilename
  | .disallowedExt => some .disallowedExtension
  | .saveFailed _ => some .writeError
  | .success _ _ _ => none

/-- `True` exactly on the 200 success payload. -/
def UploadResponse.isSuccess : UploadResponse → Bool
  | .success _ _ _ => true
  | _ => false

/-- `True` when the response shows that every intake-policy check passed
(the pipeline reached the store step). -/
def passedValidation : UploadResponse → Bool
  | .success _ _ _ => true
  | .saveFailed _ => true
  | _ => false

/-- The shape `YYYYMMDD_HHMMSS`: 15 characters, digits everywhere except an
underscore at index 8. -/
def timestampShaped (ts : List Char) : Bool :=
  ts.length == 15 &&
    (ts.take 8).all (fun c => decide (48 ≤ c.toNat) && decide (c.toNat ≤ 57)) &&
    (match ts.drop 8 with
     | c :: rest =>
         c == '_' && rest.all (fun c => decide (48 ≤ c.toNat) && decide (c.toNat ≤ 57))
     | [] => false)

/-! ### Helper lemmas: characters -/

theorem char_toNat_ofNat (n : Nat) (h : n.isValidChar) : (Char.ofNat n).toNat = n := by
  unfold Char.ofNat
  rw [dif_pos h]
  rfl

theorem char_eq_of_toNat_eq {a b : Char} (h : a.toNat = b.toNat) : a = b :=
  Char.ext (UInt32.ext h)

theorem isValidChar_of_lt (n : Nat) (h : n < 0xd800) : n.isValidChar :=
  Or.inl h

theorem toLower_toNat_of_upper (c : Char) (h : 65 ≤ c.toNat ∧ c.toNat ≤ 90) :
    c.toLower.toNat = c.toNat + 32 := by
  unfold Char.toLower
  rw [if_pos ⟨h.1, h.2⟩]
  exact char_toNat_ofNat _ (isValidChar_of_lt _ (by omega))

theorem toLower_eq_self (c : Char) (h : ¬(65 ≤ c.toNat ∧ c.toNat ≤ 90)) :
    c.toLower = c := by
  unfold Char.toLower
  rw [if_neg]
  intro hc
  exact h ⟨hc.1, hc.2⟩

theorem toLower_eq_dot_iff (c : Char) : c.toLower = '.' ↔ c = '.' := by
  by_cases h : 65 ≤ c.toNat ∧ c.toNat ≤ 90
  · constructor
    · intro hl
      have h1 : c.toLower.toNat = c.toNat + 32 := toLower_toNat_of_upper c h
      rw [hl] at h1
      have : ('.' : Char).toNat = 46 := by decide
      omega
    · intro hc
      subst hc
      simp at h
  · rw [toLower_eq_self c h]

theorem toLower_idem (c : Char) : c.toLower.toLower = c.toLower := by
  by_cases h : 65 ≤ c.toNat ∧ c.toNat ≤ 90
  · have h1 : c.toLower.toNat = c.toNat + 32 := toLower_toNat_of_upper c h
    apply toLower_eq_self
    omega
  · rw [toLower_eq_self c h, toLower_eq_self c h]

/-! ### Helper lemmas: decimal digits and padding -/

theorem digitChar_toNat (n : Nat) : (digitChar n).toNat = 48 + n % 10 :=
  char_toNat_ofNat _ (isValidChar_of_lt _ (by omega))

theorem mem_natDigitsAux_toNat (fuel : Nat) :
    ∀ {n : Nat}, ∀ c ∈ natDigitsAux fuel n, 48 ≤ c.toNat ∧ c.toNat ≤ 57 := by
  induction fuel with
  | zero =>
    intro n c hc
    simp [natDigitsAux] at hc
  | succ f ih =>
    intro n c hc
    rw [natDigitsAux] at hc
    split at hc
    · simp only [List.mem_singleton] at hc
      subst hc
      rw [digitChar_toNat]
      omega
    · rcases List.mem_append.mp hc with h1 | h1
      · exact ih c h1
      · simp only [List.mem_singleton] at h1
        subst h1
        rw [digitChar_toNat]
        omega

theorem mem_natDigits_toNat (n : Nat) :
    ∀ c ∈ natDigits n, 48 ≤ c.toNat ∧ c.toNat ≤ 57 :=
  mem_natDigitsAux_toNat (n + 1)

theorem natDigitsAux_length_le1 (fuel : Nat) {n : Nat} (h : n < 10) :
    (natDigitsAux fuel n).length ≤ 1 := by
  cases fuel with
  | zero => simp [natDigitsAux]
  | succ f => simp [natDigitsAux, h]

theorem natDigitsAux_length_le2 (fuel : Nat) {n : Nat} (h : n < 100) :
    (natDigitsAux fuel n).length ≤ 2 := by
  cases fuel with
  | zero => simp [natDigitsAux]
  | succ f =>
    by_cases h10 : n < 10
    · simp [natDigitsAux, h10]
    · rw [natDigitsAux, if_neg h10]
      have h2 := natDigitsAux_length_le1 f (show n / 10 < 10 by omega)
      simp only [List.length_append, List.length_singleton]
      omega

theorem natDigitsAux_length_le3 (fuel : Nat) {n : Nat} (h : n < 1000) :
    (natDigitsAux fuel n).length ≤ 3 := by
  cases fuel with
  | zero => simp [natDigitsAux]
  | succ f =>
    by_cases h10 : n < 10
    · simp [natDigitsAux, h10]
    · rw [natDigitsAux, if_neg h10]
      have h2 := natDigitsAux_length_le2 f (show n / 10 < 100 by omega)
      simp only [List.length_append, List.length_singleton]
      omega

theorem natDigitsAux_length_le4 (fuel : Nat) {n : Nat} (h : n < 10000) :
    (natDigitsAux fuel n).length ≤ 4 := by
  cases fuel with
  | zero => simp [natDigitsAux]
  | succ f =>
    by_cases h10 : n < 10
    · simp [natDigitsAux, h10]
    · rw [natDigitsAux, if_neg h10]
      have h2 := natDigitsAux_length_le3 f (show n / 10 < 1000 by omega)
      simp only [List.length_append, List.length_singleton]
      omega

theorem natDigits_length_le2 {n : Nat} (h : n < 100) : (natDigits n).length ≤ 2 :=
  natDigitsAux_length_le2 (n + 1) h

theorem natDigits_length_le4 {n : Nat} (h : n < 10000) : (natDigits n).length ≤ 4 :=
  natDigitsAux_length_le4 (n + 1) h

theorem padZero_length {w n : Nat} (h : (natDigits n).length ≤ w) :
    (padZero w n).length = w := by
  simp only [padZero, List.length_append, List.length_replicate]
  omega

theorem padZero_length_two {n : Nat} (h : n < 100) : (padZero 2 n).length = 2 :=
  padZero_length (natDigits_length_le2 h)

theorem padZero_length_four {n : Nat} (h : n < 10000) : (padZero 4 n).length = 4 :=
  padZero_length (natDigits_length_le4 h)

theorem mem_padZero_toNat {w n : Nat} {c : Char} (h : c ∈ padZero w n) :
    48 ≤ c.toNat ∧ c.toNat ≤ 57 := by
  rcases List.mem_append.mp h with h1 | h1
  · have := List.eq_of_mem_replicate h1
    subst this
    decide
  · exact mem_natDigits_toNat n c h1

theorem uint32_le_iff (a b : UInt32) : a ≤ b ↔ a.toNat ≤ b.toNat := Iff.rfl

theorem isDigit_of_toNat {c : Char} (h1 : 48 ≤ c.toNat) (h2 : c.toNat ≤ 57) :
    c.isDigit = true := by
  simp only [Char.isDigit, Bool.and_eq_true, decide_eq_true_eq]
  exact ⟨(uint32_le_iff 48 c.val).mpr h1, (uint32_le_iff c.val 57).mpr h2⟩

theorem isSafeChar_of_digit_toNat {c : Char} (h1 : 48 ≤ c.toNat) (h2 : c.toNat ≤ 57) :
    isSafeChar c = true := by
  simp [isSafeChar, isDigit_of_toNat h1 h2]

theorem mem_strftimeToken_safe {t : DateTime} {c : Char} (h : c ∈ strftimeToken t) :
    isSafeChar c = true := by
  unfold strftimeToken at h
  simp only [List.mem_append, List.mem_cons] at h
  rcases h with ((h | h) | h) | h | (h | h) | h
  all_goals first
    | (exact isSafeChar_of_digit_toNat (mem_padZero_toNat h).1 (mem_padZero_toNat h).2)
    | (subst h; decide)

/-! ### Helper lemmas: membership through the sanitisation pipeline -/

theorem mem_of_mem_stripDotUnderscore {c : Char} {s : List Char}
    (h : c ∈ stripDotUnderscore s) : c ∈ s := by
  unfold stripDotUnderscore at h
  rw [List.mem_reverse] at h
  have h2 := List.Sublist.mem h (List.dropWhile_sublist _)
  rw [List.mem_reverse] at h2
  exact List.Sublist.mem h2 (List.dropWhile_sublist _)

theorem safe_of_mem_secure_filename {c : Char} {f : List Char}
    (h : c ∈ secure_filename f) : isSafeChar c = true :=
  List.of_mem_filter (mem_of_mem_stripDotUnderscore h)

theorem mem_of_mem_splitext_stem {c : Char} {s : List Char}
    (h : c ∈ (splitext s).1) : c ∈ s := by
  unfold splitext at h
  split at h
  · split at h
    · exact h
    · exact List.Sublist.mem h (List.take_sublist _ _)
  · exact h

theorem mem_of_mem_splitext_ext {c : Char} {s : List Char}
    (h : c ∈ (splitext s).2) : c ∈ s := by
  unfold splitext at h
  split at h
  · split at h
    · simp at h
    · exact List.Sublist.mem h (List.drop_sublist _ _)
  · simp at h

theorem safe_ne_slash {c : Char} (h : isSafeChar c = true) : ¬(c = '/') := by
  intro hc
  subst hc
  simp [isSafeChar, Char.isAlpha, Char.isUpper, Char.isLower, Char.isDigit] at h

theorem mem_derive_name_safe {f : List Char} {now : DateTime} {c : Char}
    (h : c ∈ derive_name f now) : isSafeChar c = true := by
  unfold derive_name at h
  simp only [List.mem_append, List.mem_cons] at h
  rcases h with h | h | h | h
  · exact safe_of_mem_secure_filename (mem_of_mem_splitext_stem h)
  · subst h
    decide
  · exact mem_strftimeToken_safe h
  · exact safe_of_mem_secure_filename (mem_of_mem_splitext_ext h)

theorem derive_name_no_slash {f : List Char} {now : DateTime} {c : Char}
    (h : c ∈ derive_name f now) : ¬(c = '/') :=
  safe_ne_slash (mem_derive_name_safe h)

theorem underscore_mem_derive_name (f : List Char) (now : DateTime) :
    '_' ∈ derive_name f now := by
  unfold derive_name
  simp

/-! ### Helper lemmas: path splitting and resolution -/

theorem foldr_slashStep_no_slash {a : List Char} (h : ∀ c ∈ a, ¬(c = '/'))
    (w : List Char) (ws : List (List Char)) :
    a.foldr slashStep (w :: ws) = (a ++ w) :: ws := by
  induction a with
  | nil => simp
  | cons x xs ih =>
    have hx : ¬(x = '/') := h x (by simp)
    have hxs : ∀ c ∈ xs, ¬(c = '/') := fun c hc => h c (by simp [hc])
    simp only [List.foldr_cons]
    rw [ih hxs]
    simp [slashStep, hx]

theorem splitOnSlash_append {a b : List Char} (ha : ∀ c ∈ a, ¬(c = '/'))
    (hb : ∀ c ∈ b, ¬(c = '/')) :
    splitOnSlash (a ++ '/' :: b) = [a, b] := by
  unfold splitOnSlash
  rw [List.foldr_append]
  simp only [List.foldr_cons]
  have hb2 : List.foldr slashStep [[]] b = [b] := by
    simpa using foldr_slashStep_no_slash hb [] []
  rw [hb2]
  have hs : slashStep '/' [b] = [[], b] := by simp [slashStep]
  rw [hs]
  simpa using foldr_slashStep_no_slash ha [] [b]

theorem resolveParts_two {a d : List Char}
    (ha1 : ¬(a = [])) (ha2 : ¬(a = ['.'])) (ha3 : ¬(a = ['.', '.']))
    (hd1 : ¬(d = [])) (hd2 : ¬(d = ['.'])) (hd3 : ¬(d = ['.', '.'])) :
    resolveParts [a, d] = [a, d] := by
  unfold resolveParts
  simp [ha1, ha2, ha3, hd1, hd2, hd3]

theorem derive_name_ne_special (f : List Char) (now : DateTime) :
    ¬(derive_name f now = []) ∧ ¬(derive_name f now = ['.']) ∧
    ¬(derive_name f now = ['.', '.']) := by
  have h1 := underscore_mem_derive_name f now
  refine ⟨?_, ?_, ?_⟩
  all_goals
    intro he
    rw [he] at h1
    simp at h1

/-- C1: for every original filename, including ones containing
path-traversal sequences such as `../../etc/passwd`, the destination path
`os.path.join(UPLOAD_FOLDER, derived name)` resolves strictly inside the
storage root: the derived name contains no `/` and is never `.` or `..`,
so the joined path's resolution is exactly `uploads/<derived name>`. -/
theorem claim_C1 (f : List Char) (now : DateTime) :
    staysInside uploadFolder (osPathJoin uploadFolder (derive_name f now)) = true := by
  have hns : ∀ c ∈ derive_name f now, ¬(c = '/') := fun _ hc => derive_name_no_slash hc
  have hroot : ∀ c ∈ uploadFolder, ¬(c = '/') := by decide
  have hhead : ((derive_name f now).head? == some '/') = false := by
    cases hd : derive_name f now with
    | nil => rfl
    | cons x xs =>
      have hx : ¬(x = '/') := by
        apply hns
        rw [hd]
        simp
      simpa using hx
  unfold osPathJoin
  rw [if_neg (by simp [hhead])]
  unfold staysInside
  rw [splitOnSlash_append hroot hns]
  obtain ⟨h1, h2, h3⟩ := derive_name_ne_special f now
  rw [resolveParts_two (by decide) (by decide) (by decide) h1 h2 h3]
  simp [uploadFolder]

/-! ### Helper lemmas: the validation chain -/

theorem allowed_file_ne_nil {f : List Char} (h : allowed_file f = true) : ¬(f = []) := by
  intro he
  subst he
  simp [allowed_file] at h

theorem isEmpty_false_of_ne_nil {f : List Char} (h : ¬(f = [])) : f.isEmpty = false := by
  cases hf : f with
  | nil => exact absurd hf h
  | cons a l => rfl

theorem allowed_file_false_iff (f : List Char) :
    allowed_file f = false ↔
      (f.contains '.' = false ∨
        ALLOWED_EXTENSIONS.contains ((extAfterLastDot f).map Char.toLower) = false) := by
  unfold allowed_file
  cases hc : f.contains '.' with
  | false => simp [hc]
  | true =>
    cases hm : ALLOWED_EXTENSIONS.contains ((extAfterLastDot f).map Char.toLower) with
    | false => simp [hc, hm]
    | true => simp [hc, hm]

theorem contains_dot_map {g : Char → Char} (hg : ∀ c, g c = '.' ↔ c = '.')
    (f : List Char) : (f.map g).contains '.' = f.contains '.' := by
  induction f with
  | nil => rfl
  | cons x xs ih =>
    simp only [List.map_cons, List.contains_cons, ih]
    by_cases hx : x = '.'
    · subst hx
      have hgx : g '.' = '.' := (hg '.').mpr rfl
      rw [hgx]
    · have h2 : ¬(g x = '.') := fun hh => hx ((hg x).mp hh)
      have e1 : ('.' == g x) = false := beq_eq_false_iff_ne.mpr (fun hh => h2 hh.symm)
      have e2 : ('.' == x) = false := beq_eq_false_iff_ne.mpr (fun hh => hx hh.symm)
      rw [e1, e2]

theorem extAfterLastDot_map {g : Char → Char} (hg : ∀ c, g c = '.' ↔ c = '.')
    (f : List Char) : extAfterLastDot (f.map g) = (extAfterLastDot f).map g := by
  unfold extAfterLastDot
  have hp : (fun c => !(g c == '.')) = (fun c => !(c == '.')) ∘ g := rfl
  rw [← List.map_reverse, List.takeWhile_map, ← hp]
  have hq : (fun c => !(g c == '.')) = (fun c => !(c == '.')) := by
    funext c
    by_cases hc : c = '.'
    · subst hc
      have hgx : g '.' = '.' := (hg '.').mpr rfl
      rw [hgx]
    · have h2 : ¬(g c = '.') := fun hh => hc ((hg c).mp hh)
      have e1 : (g c == '.') = false := beq_eq_false_iff_ne.mpr h2
      have e2 : (c == '.') = false := beq_eq_false_iff_ne.mpr hc
      rw [e1, e2]
  rw [hq, List.map_reverse]

theorem allowed_file_toLower (f : List Char) :
    allowed_file (f.map Char.toLower) = allowed_file f := by
  unfold allowed_file
  rw [contains_dot_map toLower_eq_dot_iff, extAfterLastDot_map toLower_eq_dot_iff,
    List.map_map]
  have hcomp : Char.toLower ∘ Char.toLower = Char.toLower := funext toLower_idem
  rw [hcomp]

/-! ### Claims C2 and C3 -/

/-- C3: any request whose declared size exceeds `MAX_FILE_SIZE` is answered
with the 413 `TooLarge` response (werkzeug enforces `MAX_CONTENT_LENGTH`
before the handler runs), and any request with a file part, a declared size
within the cap and an allowed extension passes every intake-policy check
and reaches the store step. -/
theorem claim_C3 (fs : FS) (req : UploadRequest) (now : DateTime) (io : IOOutcome) :
    (req.contentLength > MAX_FILE_SIZE →
      (upload_file fs req now io).1 = UploadResponse.tooLarge) ∧
    (req.contentLength ≤ MAX_FILE_SIZE → req.hasFilePart = true →
      allowed_file req.filename = true →
      passedValidation (upload_file fs req now io).1 = true) := by
  constructor
  · intro h
    simp [upload_file, h]
  · intro hle hpart hext
    have hempty : req.filename.isEmpty = false :=
      isEmpty_false_of_ne_nil (allowed_file_ne_nil hext)
    have hgt : ¬(req.contentLength > MAX_FILE_SIZE) := Nat.not_lt.mpr hle
    cases io <;> simp [upload_file, hgt, hpart, hempty, hext, passedValidation]

/-- C3 witness: a 16 MiB + 1 request is answered `TooLarge`; a small
`a.pdf` request passes validation. -/
theorem claim_C3_witness :
    (upload_file [] ⟨true, "a.pdf".data, 16777217, []⟩ ⟨2024, 3, 1, 10, 0, 0⟩
        IOOutcome.ok).1 = UploadResponse.tooLarge ∧
    passedValidation
      (upload_file [] ⟨true, "a.pdf".data, 100, []⟩ ⟨2024, 3, 1, 10, 0, 0⟩
        IOOutcome.ok).1 = true :=
  ⟨(claim_C3 [] ⟨true, "a.pdf".data, 16777217, []⟩ ⟨2024, 3, 1, 10, 0, 0⟩
      IOOutcome.ok).1 (by decide),
   (claim_C3 [] ⟨true, "a.pdf".data, 100, []⟩ ⟨2024, 3, 1, 10, 0, 0⟩
      IOOutcome.ok).2 (by decide) rfl (by decide)⟩

/-- C2 counterexample: the claim quantifies over every non-empty filename
and so over every declared size, but a request whose declared size exceeds
the cap is answered `TooLarge` even when its extension condition for
`DisallowedExtension` holds: `virus.exe` at 16 MiB + 1 satisfies the
extension condition yet is not rejected with `DisallowedExtension`. -/
theorem claim_C2_counterexample :
    ¬((("virus.exe".data.contains '.' = false ∨
          ALLOWED_EXTENSIONS.contains
            ((extAfterLastDot "virus.exe".data).map Char.toLower) = false)) →
      (upload_file [] ⟨true, "virus.exe".data, 16777217, []⟩ ⟨2024, 3, 1, 10, 0, 0⟩
          IOOutcome.ok).1 = UploadResponse.disallowedExt) := by
  decide

/-- C2 amended: for every request with a file part, a non-empty filename
and a declared size within `MAX_FILE_SIZE`, the pipeline rejects with
`DisallowedExtension` exactly when the filename contains no `.` or the
substring after the last `.`, lowercased, is not in `ALLOWED_EXTENSIONS`;
moreover the membership test is case-insensitive (lowercasing the filename
does not change the verdict) and, the response side of the equivalence
holding for every file content, independent of the content. -/
theorem claim_C2_amended :
    (∀ (fs : FS) (req : UploadRequest) (now : DateTime) (io : IOOutcome),
      req.hasFilePart = true → ¬(req.filename = []) →
      req.contentLength ≤ MAX_FILE_SIZE →
      ((upload_file fs req now io).1 = UploadResponse.disallowedExt ↔
        (req.filename.contains '.' = false ∨
          ALLOWED_EXTENSIONS.contains
            ((extAfterLastDot req.filename).map Char.toLower) = false))) ∧
    (∀ f : List Char, allowed_file (f.map Char.toLower) = allowed_file f) := by
  constructor
  · intro fs req now io hpart hnil hle
    have hempty : req.filename.isEmpty = false := isEmpty_false_of_ne_nil hnil
    have hgt : ¬(req.contentLength > MAX_FILE_SIZE) := Nat.not_lt.mpr hle
    rw [← allowed_file_false_iff]
    by_cases hext : allowed_file req.filename = true
    · constructor
      · intro hresp
        exfalso
        cases io <;> simp [upload_file, hgt, hpart, hempty, hext] at hresp
      · intro hfalse
        rw [hext] at hfalse
        cases hfalse
    · have hextf : allowed_file req.filename = false := eq_false_of_ne_true hext
      constructor
      · intro _
        exact hextf
      · intro _
        simp [upload_file, hgt, hpart, hempty, hextf]
  · exact allowed_file_toLower

/-- C2 witness: at declared size 1000, `virus.exe` is rejected with
`DisallowedExtension` and the extension condition holds. -/
theorem claim_C2_witness :
    (upload_file [] ⟨true, "virus.exe".data, 1000, []⟩ ⟨2024, 3, 1, 10, 0, 0⟩
        IOOutcome.ok).1 = UploadResponse.disallowedExt ↔
      ("virus.exe".data.contains '.' = false ∨
        ALLOWED_EXTENSIONS.contains
          ((extAfterLastDot "virus.exe".data).map Char.toLower) = false) :=
  claim_C2_amended.1 [] ⟨true, "virus.exe".data, 1000, []⟩ ⟨2024, 3, 1, 10, 0, 0⟩
    IOOutcome.ok rfl (by decide) (by decide)

/-! ### Claims C7, C8 and C9 -/

/-- C7 counterexample: a request with an empty filename whose declared size
exceeds the cap is answered 413 `TooLarge` by werkzeug before the handler's
filename checks run, so its rejection reason is not `NoFilename`. -/
theorem claim_C7_counterexample :
    specReason (upload_file [] ⟨true, [], 16777217, []⟩ ⟨2024, 3, 1, 10, 0, 0⟩
        IOOutcome.ok).1 = some Reason.tooLarge ∧
    ¬(specReason (upload_file [] ⟨true, [], 16777217, []⟩ ⟨2024, 3, 1, 10, 0, 0⟩
        IOOutcome.ok).1 = some Reason.noFilename) := by
  decide

/-- C7 amended: for every request whose declared size is within the cap and
whose filename is empty or whose file part is absent, the pipeline rejects
with reason `NoFilename` (the specification's name for the handler's two
missing-file responses) and the storage root is left unchanged. -/
theorem claim_C7_amended (fs : FS) (req : UploadRequest) (now : DateTime)
    (io : IOOutcome) (hle : req.contentLength ≤ MAX_FILE_SIZE)
    (h : req.hasFilePart = false ∨ req.filename = []) :
    specReason (upload_file fs req now io).1 = some Reason.noFilename ∧
    (upload_file fs req now io).2 = fs := by
  have hgt : ¬(req.contentLength > MAX_FILE_SIZE) := Nat.not_lt.mpr hle
  rcases h with hp | hf
  · constructor <;> simp [upload_file, hgt, hp, specReason]
  · cases hp : req.hasFilePart with
    | false => constructor <;> simp [upload_file, hgt, hp, specReason]
    | true =>
      have hempty : req.filename.isEmpty = true := by
        rw [hf]
        rfl
      constructor <;> simp [upload_file, hgt, hp, hempty, specReason]

/-- C7 witness: an empty-filename request of size 0 is rejected with
`NoFilename` and creates no file. -/
theorem claim_C7_witness :
    specReason (upload_file [] ⟨true, [], 0, []⟩ ⟨2024, 3, 1, 10, 0, 0⟩
        IOOutcome.ok).1 = some Reason.noFilename ∧
    (upload_file [] ⟨true, [], 0, []⟩ ⟨2024, 3, 1, 10, 0, 0⟩ IOOutcome.ok).2 = [] :=
  claim_C7_amended [] ⟨true, [], 0, []⟩ ⟨2024, 3, 1, 10, 0, 0⟩ IOOutcome.ok
    (by decide) (Or.inr rfl)

/-- C8: the `/files` handler is a pure projection of the storage root and
performs no writes, so two consecutive calls with no intervening writes
return identical sequences of (name, size, modified) triples — a fortiori
the same set of (name, size) pairs. -/
theorem claim_C8 (fs : FS) :
    (list_files_route ((list_files_route fs).2)).1 = (list_files_route fs).1 ∧
    (list_files_route fs).2 = fs :=
  ⟨rfl, rfl⟩

/-- C9: when the write (`file.save`) or the subsequent stat
(`os.path.getsize`) raises on a request that passed validation, the
pipeline returns the 500 failure carrying the underlying exception message
appended to `Failed to save file: `, and never a success response. -/
theorem claim_C9 (fs : FS) (req : UploadRequest) (now : DateTime)
    (written : Option (List Nat)) (msg : List Char)
    (hle : req.contentLength ≤ MAX_FILE_SIZE) (hpart : req.hasFilePart = true)
    (hext : allowed_file req.filename = true) :
    (upload_file fs req now (IOOutcome.saveFails written msg)).1
        = UploadResponse.saveFailed (saveErrMsg ++ msg) ∧
    (upload_file fs req now (IOOutcome.statFails msg)).1
        = UploadResponse.saveFailed (saveErrMsg ++ msg) ∧
    (upload_file fs req now (IOOutcome.saveFails written msg)).1.isSuccess = false ∧
    (upload_file fs req now (IOOutcome.statFails msg)).1.isSuccess = false := by
  have hempty : req.filename.isEmpty = false :=
    isEmpty_false_of_ne_nil (allowed_file_ne_nil hext)
  have hgt : ¬(req.contentLength > MAX_FILE_SIZE) := Nat.not_lt.mpr hle
  refine ⟨?_, ?_, ?_, ?_⟩ <;>
    simp [upload_file, hgt, hpart, hempty, hext, UploadResponse.isSuccess]

/-- C9 witness: a failing save of `a.pdf` answers 500 with the cause
`disk full` attached, and is not a success. -/
theorem claim_C9_witness :
    (upload_file [] ⟨true, "a.pdf".data, 10, [1, 2]⟩ ⟨2024, 3, 1, 10, 0, 0⟩
        (IOOutcome.saveFails (some [1]) "disk full".data)).1
      = UploadResponse.saveFailed (saveErrMsg ++ "disk full".data) ∧
    (upload_file [] ⟨true, "a.pdf".data, 10, [1, 2]⟩ ⟨2024, 3, 1, 10, 0, 0⟩
        (IOOutcome.statFails "disk full".data)).1
      = UploadResponse.saveFailed (saveErrMsg ++ "disk full".data) ∧
    (upload_file [] ⟨true, "a.pdf".data, 10, [1, 2]⟩ ⟨2024, 3, 1, 10, 0, 0⟩
        (IOOutcome.saveFails (some [1]) "disk full".data)).1.isSuccess = false ∧
    (upload_file [] ⟨true, "a.pdf".data, 10, [1, 2]⟩ ⟨2024, 3, 1, 10, 0, 0⟩
        (IOOutcome.statFails "disk full".data)).1.isSuccess = false :=
  claim_C9 [] ⟨true, "a.pdf".data, 10, [1, 2]⟩ ⟨2024, 3, 1, 10, 0, 0⟩
    (some [1]) "disk full".data (by decide) rfl (by decide)

/-! ### Claims C4 and C10 -/

set_option maxRecDepth 20000 in
/-- C4 counterexample: the scenario's upload of `report.PDF` stores
`report_20240301_100000.PDF` — `os.path.splitext` keeps the extension's
original case, so the stored name is not the claimed
`report_20240301_100000.pdf`. -/
theorem claim_C4_counterexample :
    (upload_file [] ⟨true, "report.PDF".data, 1024, List.replicate 1024 0⟩
        ⟨2024, 3, 1, 10, 0, 0⟩ IOOutcome.ok).1
      = UploadResponse.success "report_20240301_100000.PDF".data 1024
          "20240301_100000".data ∧
    ¬("report_20240301_100000.PDF".data = "report_20240301_100000.pdf".data) := by
  decide

set_option maxRecDepth 20000 in
/-- C4 amended: uploading `report.PDF` (1024 bytes, at
2024-03-01T10:00:00) succeeds with stored name
`report_20240301_100000.PDF` — the extension's case is preserved — and a
success response reporting size 1024 and timestamp `20240301_100000`. -/
theorem claim_C4_amended :
    upload_file [] ⟨true, "report.PDF".data, 1024, List.replicate 1024 0⟩
        ⟨2024, 3, 1, 10, 0, 0⟩ IOOutcome.ok
      = (UploadResponse.success "report_20240301_100000.PDF".data 1024
           "20240301_100000".data,
         [Entry.file "report_20240301_100000.PDF".data (List.replicate 1024 0)
            ⟨2024, 3, 1, 10, 0, 0⟩]) := by
  decide

/-- C10: the composed stored name ends verbatim with the extension of the
sanitized filename (the naming step never lowercases it), while validation
compares the lowercased extension: concretely `report.PDF` passes
validation, its sanitized extension is `.PDF`, and the stored name's
extension `PDF` is itself not a member of the lowercase
`ALLOWED_EXTENSIONS`. -/
theorem claim_C10 :
    (∀ (f : List Char) (now : DateTime),
      (splitext (secure_filename f)).2.IsSuffix (derive_name f now)) ∧
    allowed_file "report.PDF".data = true ∧
    (splitext (secure_filename "report.PDF".data)).2 = ".PDF".data ∧
    ALLOWED_EXTENSIONS.contains
      (extAfterLastDot (derive_name "report.PDF".data ⟨2024, 3, 1, 10, 0, 0⟩)) = false := by
  refine ⟨?_, by decide, by decide, by decide⟩
  intro f now
  exact ⟨(splitext (secure_filename f)).1 ++ '_' :: strftimeToken now,
    by simp [derive_name]⟩

/-! ### Claim C5 -/

theorem padZero_all_digits (w n : Nat) :
    (padZero w n).all (fun c => decide (48 ≤ c.toNat) && decide (c.toNat ≤ 57)) = true := by
  rw [List.all_eq_true]
  intro c hc
  have h := mem_padZero_toNat hc
  simp only [Bool.and_eq_true, decide_eq_true_eq]
  exact h

/-- C5: for every original filename and every time value with in-range
fields, the derived stored name is exactly
`stem ++ "_" ++ timestampToken ++ extension` for the stem and extension of
the sanitized filename, and the timestamp token has the fixed-width
15-character `YYYYMMDD_HHMMSS` shape (digits everywhere, underscore at
index 8) at one-second resolution. -/
theorem claim_C5 (f : List Char) (now : DateTime)
    (hy : now.year < 10000) (hmo : now.month < 100) (hd : now.day < 100)
    (hh : now.hour < 100) (hmi : now.minute < 100) (hs : now.second < 100) :
    derive_name f now =
      (splitext (secure_filename f)).1 ++ '_' ::
        (strftimeToken now ++ (splitext (secure_filename f)).2) ∧
    timestampShaped (strftimeToken now) = true := by
  constructor
  · rfl
  · have l4 := padZero_length_four hy
    have l2a := padZero_length_two hmo
    have l2b := padZero_length_two hd
    have l2c := padZero_length_two hh
    have l2d := padZero_length_two hmi
    have l2e := padZero_length_two hs
    have hlen8 :
        ((padZero 4 now.year ++ padZero 2 now.month) ++ padZero 2 now.day).length = 8 := by
      simp only [List.length_append]
      omega
    have e1 : List.take 8 (strftimeToken now)
        = (padZero 4 now.year ++ padZero 2 now.month) ++ padZero 2 now.day := by
      unfold strftimeToken
      exact List.take_left' hlen8
    have e2 : List.drop 8 (strftimeToken now)
        = '_' :: (padZero 2 now.hour ++ padZero 2 now.minute ++ padZero 2 now.second) := by
      unfold strftimeToken
      exact List.drop_left' hlen8
    have e3 : (strftimeToken now).length = 15 := by
      unfold strftimeToken
      simp only [List.length_append, List.length_cons]
      omega
    unfold timestampShaped
    rw [e1, e2, e3]
    simp [List.all_append, padZero_all_digits]

/-- C5 witness: the concrete scenario's time 2024-03-01T10:00:00 yields
token `20240301_100000` in the composed name. -/
theorem claim_C5_witness :
    derive_name "report.PDF".data ⟨2024, 3, 1, 10, 0, 0⟩ =
      (splitext (secure_filename "report.PDF".data)).1 ++ '_' ::
        (strftimeToken ⟨2024, 3, 1, 10, 0, 0⟩ ++
          (splitext (secure_filename "report.PDF".data)).2) ∧
    timestampShaped (strftimeToken ⟨2024, 3, 1, 10, 0, 0⟩) = true :=
  claim_C5 "report.PDF".data ⟨2024, 3, 1, 10, 0, 0⟩ (by decide) (by decide)
    (by decide) (by decide) (by decide) (by decide)

/-! ### Claim C6: survival of extension letters through sanitisation -/

theorem beq_false_of_toNat {c d : Char} (h : ¬(c.toNat = d.toNat)) : (c == d) = false :=
  beq_eq_false_iff_ne.mpr (fun he => h (by rw [he]))

theorem pyIsSpace_eq_false {c : Char} (h : 65 ≤ c.toNat) : pyIsSpace c = false := by
  have hx : ∀ d : Char, d.toNat < 64 → (c == d) = false :=
    fun d hd => beq_false_of_toNat (by omega)
  unfold pyIsSpace
  rw [hx ' ' (by decide), hx '\t' (by decide), hx '\n' (by decide), hx '\r' (by decide),
    hx '\x0b' (by decide), hx '\x0c' (by decide), hx '\x1c' (by decide),
    hx '\x1d' (by decide), hx '\x1e' (by decide), hx '\x1f' (by decide)]
  rfl

theorem isSafeChar_of_letter {c : Char}
    (h : (65 ≤ c.toNat ∧ c.toNat ≤ 90) ∨ (97 ≤ c.toNat ∧ c.toNat ≤ 122)) :
    isSafeChar c = true := by
  rcases h with ⟨h1, h2⟩ | ⟨h1, h2⟩
  · have hu : c.isUpper = true := by
      simp only [Char.isUpper, Bool.and_eq_true, decide_eq_true_eq]
      exact ⟨(uint32_le_iff _ _).mpr h1, (uint32_le_iff _ _).mpr h2⟩
    simp [isSafeChar, Char.isAlpha, hu]
  · have hl : c.isLower = true := by
      simp only [Char.isLower, Bool.and_eq_true, decide_eq_true_eq]
      exact ⟨(uint32_le_iff _ _).mpr h1, (uint32_le_iff _ _).mpr h2⟩
    simp [isSafeChar, Char.isAlpha, hl]

theorem flatten_foldr_wordStep (s : List Char) :
    (s.foldr wordStep []).flatten = s.filter (fun c => !(pyIsSpace c)) := by
  induction s with
  | nil => rfl
  | cons c s ih =>
    simp only [List.foldr_cons]
    by_cases hsp : pyIsSpace c = true
    · simp [wordStep, hsp, List.filter_cons, ih]
    · have hspf : pyIsSpace c = false := eq_false_of_ne_true hsp
      cases hR : s.foldr wordStep [] with
      | nil =>
        have hfil : List.filter (fun c => !(pyIsSpace c)) s = [] := by
          rw [← ih, hR]
          rfl
        simp [wordStep, hspf, List.filter_cons, hfil]
      | cons w ws =>
        have hfil : List.filter (fun c => !(pyIsSpace c)) s = (w :: ws).flatten := by
          rw [← ih, hR]
        simp [wordStep, hspf, List.filter_cons, hfil]

theorem mem_joinUnderscore {c : Char} {w : List Char} {ws : List (List Char)}
    (hw : w ∈ ws) (hc : c ∈ w) : c ∈ joinUnderscore ws := by
  induction ws with
  | nil => exact absurd hw (List.not_mem_nil w)
  | cons w0 tail ih =>
    cases tail with
    | nil =>
      have : w = w0 := by simpa using hw
      subst this
      exact hc
    | cons w1 rest =>
      rcases List.mem_cons.mp hw with he | hm
      · subst he
        exact List.mem_append_left _ hc
      · exact List.mem_append_right _ (List.mem_cons_of_mem _ (ih hm))

theorem mem_joinUnderscore_splitWords {c : Char} {s : List Char}
    (hc : c ∈ s) (hsp : pyIsSpace c = false) :
    c ∈ joinUnderscore (splitWords s) := by
  have hmem : c ∈ (s.foldr wordStep []).flatten := by
    rw [flatten_foldr_wordStep]
    exact List.mem_filter.mpr ⟨hc, by rw [hsp]; rfl⟩
  obtain ⟨w, hw, hcw⟩ := List.mem_flatten.mp hmem
  have hwne : w.isEmpty = false := by
    cases hwc : w with
    | nil =>
      subst hwc
      exact absurd hcw (List.not_mem_nil c)
    | cons a l => rfl
  have hws : w ∈ splitWords s :=
    List.mem_filter.mpr ⟨hw, by rw [hwne]; rfl⟩
  exact mem_joinUnderscore hws hcw

theorem mem_dropWhile_of_neg {p : Char → Bool} {c : Char} {l : List Char}
    (hc : p c = false) (h : c ∈ l) : c ∈ l.dropWhile p := by
  induction l with
  | nil => exact absurd h (List.not_mem_nil c)
  | cons a t ih =>
    by_cases ha : p a = true
    · rw [List.dropWhile_cons_of_pos ha]
      rcases List.mem_cons.mp h with he | hm
      · subst he
        rw [hc] at ha
        cases ha
      · exact ih hm
    · rw [List.dropWhile_cons_of_neg ha]
      exact h

theorem mem_stripDotUnderscore_of_neg {c : Char} {s : List Char}
    (hc : isDotOrUnderscore c = false) (h : c ∈ s) : c ∈ stripDotUnderscore s := by
  unfold stripDotUnderscore
  rw [List.mem_reverse]
  apply mem_dropWhile_of_neg hc
  rw [List.mem_reverse]
  exact mem_dropWhile_of_neg hc h

theorem letter_mem_secure_filename {c : Char} {f : List Char}
    (hlet : (65 ≤ c.toNat ∧ c.toNat ≤ 90) ∨ (97 ≤ c.toNat ∧ c.toNat ≤ 122))
    (hmem : c ∈ f) : c ∈ secure_filename f := by
  have h65 : 65 ≤ c.toNat := by rcases hlet with ⟨h1, _⟩ | ⟨h1, _⟩ <;> omega
  have h128 : c.toNat < 128 := by rcases hlet with ⟨_, h2⟩ | ⟨_, h2⟩ <;> omega
  have h1 : c ∈ asciiFilter f :=
    List.mem_filter.mpr ⟨hmem, by simpa using h128⟩
  have hslash : (c == '/') = false := by
    apply beq_false_of_toNat
    have e : ('/').toNat = 47 := rfl
    omega
  have h2 : c ∈ replaceSep (asciiFilter f) := by
    unfold replaceSep
    exact List.mem_map.mpr ⟨c, h1, by simp [hslash]⟩
  have hsp : pyIsSpace c = false := pyIsSpace_eq_false h65
  have h3 : c ∈ joinUnderscore (splitWords (replaceSep (asciiFilter f))) :=
    mem_joinUnderscore_splitWords h2 hsp
  have hsafe : isSafeChar c = true := isSafeChar_of_letter hlet
  have h4 : c ∈ (joinUnderscore (splitWords (replaceSep (asciiFilter f)))).filter isSafeChar :=
    List.mem_filter.mpr ⟨h3, hsafe⟩
  have hdu : isDotOrUnderscore c = false := by
    unfold isDotOrUnderscore
    have e1 : (c == '.') = false := by
      apply beq_false_of_toNat
      have e : ('.').toNat = 46 := rfl
      omega
    have e2 : (c == '_') = false := by
      apply beq_false_of_toNat
      have e : ('_').toNat = 95 := rfl
      rcases hlet with ⟨a, b⟩ | ⟨a, b⟩ <;> omega
    rw [e1, e2]
    rfl
  exact mem_stripDotUnderscore_of_neg hdu h4

theorem mem_of_mem_extAfterLastDot {c : Char} {f : List Char}
    (h : c ∈ extAfterLastDot f) : c ∈ f := by
  unfold extAfterLastDot at h
  rw [List.mem_reverse] at h
  have h2 := List.Sublist.mem h (List.takeWhile_sublist _)
  rwa [List.mem_reverse] at h2

theorem secure_filename_ne_nil_of_allowed {f : List Char}
    (h : allowed_file f = true) : ¬(secure_filename f = []) := by
  have hand := h
  unfold allowed_file at hand
  rw [Bool.and_eq_true] at hand
  obtain ⟨hdot, hcont⟩ := hand
  have hmem : (extAfterLastDot f).map Char.toLower ∈ ALLOWED_EXTENSIONS :=
    List.elem_iff.mp hcont
  have hall : ∀ d ∈ (extAfterLastDot f).map Char.toLower,
      97 ≤ d.toNat ∧ d.toNat ≤ 122 := by
    simp only [ALLOWED_EXTENSIONS, List.mem_cons, List.not_mem_nil, or_false] at hmem
    rcases hmem with h9 | h9 | h9 | h9 | h9 | h9 | h9 | h9 | h9 <;> (rw [h9]; decide)
  have hne : ¬(extAfterLastDot f = []) := by
    intro he
    rw [he] at hmem
    exact absurd hmem (by decide)
  obtain ⟨c0, rest, hext⟩ : ∃ c0 rest, extAfterLastDot f = c0 :: rest := by
    cases hc : extAfterLastDot f with
    | nil => exact absurd hc hne
    | cons a l => exact ⟨a, l, rfl⟩
  have hc0 : c0 ∈ extAfterLastDot f := by
    rw [hext]
    simp
  have hlow : Char.toLower c0 ∈ (extAfterLastDot f).map Char.toLower :=
    List.mem_map_of_mem _ hc0
  have hr := hall _ hlow
  have hlet : (65 ≤ c0.toNat ∧ c0.toNat ≤ 90) ∨ (97 ≤ c0.toNat ∧ c0.toNat ≤ 122) := by
    by_cases hu : 65 ≤ c0.toNat ∧ c0.toNat ≤ 90
    · exact Or.inl hu
    · rw [toLower_eq_self c0 hu] at hr
      exact Or.inr hr
  have hsec : c0 ∈ secure_filename f :=
    letter_mem_secure_filename hlet (mem_of_mem_extAfterLastDot hc0)
  intro he
  rw [he] at hsec
  exact absurd hsec (List.not_mem_nil c0)

/-- C6 counterexample: the code substitutes no placeholder stem.  The
filename `##` sanitizes to the empty string (empty stem and extension),
and the derived stored name is the bare `_20240301_100000` — in
particular not `file_20240301_100000`. -/
theorem claim_C6_counterexample :
    secure_filename "##".data = [] ∧
    splitext (secure_filename "##".data) = ([], []) ∧
    derive_name "##".data ⟨2024, 3, 1, 10, 0, 0⟩ = '_' :: "20240301_100000".data ∧
    ¬(derive_name "##".data ⟨2024, 3, 1, 10, 0, 0⟩ = "file_20240301_100000".data) := by
  decide

/-- C6 amended: the name-derivation step performs no placeholder
substitution — a filename sanitizing to the empty string yields the stored
name `_` followed by the bare timestamp token, with an empty stem.
However, every filename that passes validation (`allowed_file`) sanitizes
to a non-empty name (the letters of its allowed extension survive every
sanitisation stage), so the empty-stem case is unreachable for accepted
uploads. -/
theorem claim_C6_amended :
    (∀ (f : List Char) (now : DateTime), secure_filename f = [] →
      derive_name f now = '_' :: strftimeToken now) ∧
    (∀ f : List Char, allowed_file f = true → ¬(secure_filename f = [])) := by
  constructor
  · intro f now h
    unfold derive_name
    rw [h]
    show ([] : List Char) ++ '_' :: (strftimeToken now ++ ([] : List Char)) =
      '_' :: strftimeToken now
    simp
  · exact fun f h => secure_filename_ne_nil_of_allowed h

/-- C6 witness: `##` sanitizes to empty and derives the bare
`_`-timestamp name; `a.pdf` passes validation and sanitizes to a
non-empty name. -/
theorem claim_C6_witness :
    derive_name "##".data ⟨2024, 3, 1, 10, 0, 0⟩ =
      '_' :: strftimeToken ⟨2024, 3, 1, 10, 0, 0⟩ ∧
    ¬(secure_filename "a.pdf".data = []) :=
  ⟨claim_C6_amended.1 "##".data ⟨2024, 3, 1, 10, 0, 0⟩ (by decide),
   claim_C6_amended.2 "a.pdf".data (by decide)⟩

end FileServer
